import Mathlib

/-!
# Verification of the AI_JARVIS query-intent gateway

A shallow embedding, in Lean 4, of the query-intent gateway of the
AI_JARVIS repository: the response cache and conversation context
(`ai_backend_advanced.py`), the privilege-escalation gate
(`enhanced-security.py`, `jarvis/security.py`), the command intent
parser (`jarvis/command_executor.py`) and the task classifier
(`smart-router.py`).  Python time (`datetime.now()`) is passed as an
explicit `now` argument; in-place mutation becomes explicit state
passing; Python exceptions become `Option` results.
-/

namespace AIJarvis

/-! ## Python string primitives

Executable models of the Python `str` operations the gateway uses:
`lower` (ASCII range), `strip`, the `in` containment test, no-argument
`split`, and `int(...)` parsing. -/

/-- ASCII lower-casing of one character, as Python `str.lower` acts on the
ASCII range. -/
def lowerCh (c : Char) : Char :=
  if 'A' ≤ c && c ≤ 'Z' then Char.ofNat (c.toNat + 32) else c

/-- `s.lower()` restricted to ASCII letters. -/
def pyLower (s : String) : String := String.mk (s.data.map lowerCh)

/-- Python whitespace characters recognised by `str.strip` / `str.split`. -/
def isPyWs (c : Char) : Bool :=
  c == ' ' || c == '\t' || c == '\n' || c == '\r' ||
  c == Char.ofNat 11 || c == Char.ofNat 12

/-- `s.strip()`: drop leading and trailing whitespace. -/
def pyStrip (s : String) : String :=
  String.mk (((s.data.dropWhile isPyWs).reverse.dropWhile isPyWs).reverse)

/-- Python `needle in hay` on strings: substring containment. -/
def pyIn (needle hay : String) : Bool :=
  hay.data.tails.any (fun t => needle.data.isPrefixOf t)

/-- Helper for `pySplitWs`: scan the characters, accumulating the current
token in reverse. -/
def splitWsAux : List Char → List Char → List String
  | [], acc => if acc = [] then [] else [String.mk acc.reverse]
  | c :: rest, acc =>
      if isPyWs c then
        if acc = [] then splitWsAux rest []
        else String.mk acc.reverse :: splitWsAux rest []
      else splitWsAux rest (c :: acc)

/-- `s.split()` with no separator: split on whitespace runs, dropping
empty tokens. -/
def pySplitWs (s : String) : List String := splitWsAux s.data []

/-- Digit run of a Python integer literal: at least one digit, single
underscores allowed between digits (as accepted by `int(...)`). -/
def pyDigits (acc : Nat) : List Char → Option Nat
  | [] => some acc
  | '_' :: c :: rest =>
      if c.isDigit then pyDigits (acc * 10 + (c.toNat - 48)) rest else none
  | '_' :: [] => none
  | c :: rest =>
      if c.isDigit then pyDigits (acc * 10 + (c.toNat - 48)) rest else none

/-- Python `int(token)` on a whitespace-free token: optional sign followed
by digits; `none` models the `ValueError`. -/
def pyInt? (s : String) : Option Int :=
  match s.data with
  | [] => none
  | '+' :: c :: rest =>
      if c.isDigit then (pyDigits 0 (c :: rest)).map Int.ofNat else none
  | '-' :: c :: rest =>
      if c.isDigit then (pyDigits 0 (c :: rest)).map (fun n => -(n : Int)) else none
  | c :: rest =>
      if c.isDigit then (pyDigits 0 (c :: rest)).map Int.ofNat else none

/-! ## Python `dict` as an insertion-ordered association list

Python dictionaries preserve insertion order; overwriting an existing key
keeps its position, deleting and re-inserting moves the key to the end.
Iteration (and hence `min(...)` over keys) follows that order. -/

/-- `d[k]` lookup (first occurrence). -/
def dictGet {β : Type} (l : List (String × β)) (k : String) : Option β :=
  match l with
  | [] => none
  | (k', v) :: rest => if k' = k then some v else dictGet rest k

/-- `d[k] = v`: overwrite in place, or append a fresh key at the end. -/
def dictSet {β : Type} (l : List (String × β)) (k : String) (v : β) :
    List (String × β) :=
  match l with
  | [] => [(k, v)]
  | (k', v') :: rest =>
      if k' = k then (k', v) :: rest else (k', v') :: dictSet rest k v

/-- `del d[k]`: remove the (single) occurrence of the key. -/
def dictDel {β : Type} (l : List (String × β)) (k : String) :
    List (String × β) :=
  match l with
  | [] => []
  | (k', v') :: rest =>
      if k' = k then rest else (k', v') :: dictDel rest k

/-! ## `ai_backend_advanced.py` — `CachedResponse` and `ResponseCache` -/

/-- One cache entry (`CachedResponse.__init__`): the constructor stores the
normalised query, the payload, the creation time and the ttl. -/
structure CachedResponse (α : Type) where
  query : String
  response : α
  created_at : Nat
  ttl : Nat
  deriving Repr, DecidableEq

/-- `CachedResponse.is_valid`: `datetime.now() < self.created_at + self.ttl`. -/
def CachedResponse.is_valid {α : Type} (e : CachedResponse α) (now : Nat) : Bool :=
  now < e.created_at + e.ttl

/-- Query normalisation used by `ResponseCache`: `query.lower().strip()`. -/
def normKey (q : String) : String := pyStrip (pyLower q)

/-- `ResponseCache`: insertion-ordered store of entries plus its capacity. -/
structure ResponseCache (α : Type) where
  cache : List (String × CachedResponse α)
  max_entries : Nat
  deriving Repr, DecidableEq

/-- `ResponseCache.__init__(max_entries)`. -/
def ResponseCache.init (α : Type) (max_entries : Nat) : ResponseCache α :=
  { cache := [], max_entries := max_entries }

/-- `ResponseCache.get`: on a hit, return the payload if the entry is still
valid, otherwise delete the expired entry and miss. -/
def ResponseCache.get {α : Type} (c : ResponseCache α) (query : String)
    (now : Nat) : Option α × ResponseCache α :=
  let key := normKey query
  match dictGet c.cache key with
  | some cached =>
      if cached.is_valid now then (some cached.response, c)
      else (none, { c with cache := dictDel c.cache key })
  | none => (none, c)

/-- `min(self.cache.keys(), key=lambda k: self.cache[k].created_at)`:
the first key in iteration order attaining the minimal `created_at`
(`min` keeps the earlier element on ties). -/
def minCreatedKey {α : Type} (l : List (String × CachedResponse α)) :
    Option String :=
  match l with
  | [] => none
  | p :: rest =>
      some ((rest.foldl
        (fun b x => if x.2.created_at < b.2.created_at then x else b) p).1)

/-- `ResponseCache.set`: evict the oldest entry when at capacity, then
insert or overwrite the normalised key with a fresh entry.  `none` models
the `ValueError` that `min` raises on an empty store (reachable only with
`max_entries = 0`). -/
def ResponseCache.set {α : Type} (c : ResponseCache α) (query : String)
    (response : α) (ttl : Nat) (now : Nat) : Option (ResponseCache α) :=
  let afterEvict : Option (List (String × CachedResponse α)) :=
    if c.max_entries ≤ c.cache.length then
      match minCreatedKey c.cache with
      | some oldest => some (dictDel c.cache oldest)
      | none => none
    else some c.cache
  match afterEvict with
  | none => none
  | some l =>
      let entry : CachedResponse α :=
        { query := normKey query, response := response,
          created_at := now, ttl := ttl }
      some { c with cache := dictSet l (normKey query) entry }

/-- `ResponseCache.clear`. -/
def ResponseCache.clear {α : Type} (c : ResponseCache α) : ResponseCache α :=
  { c with cache := [] }

/-- One cache operation, for stating invariants over operation sequences. -/
inductive CacheOp (α : Type) where
  | getOp (query : String) (now : Nat)
  | setOp (query : String) (response : α) (ttl : Nat) (now : Nat)
  | clearOp

/-- Apply one operation; `none` propagates the `set` exception. -/
def applyCacheOp {α : Type} (c : ResponseCache α) :
    CacheOp α → Option (ResponseCache α)
  | .getOp q now => some (c.get q now).2
  | .setOp q r ttl now => c.set q r ttl now
  | .clearOp => some c.clear

/-- Run a sequence of cache operations. -/
def runCacheOps {α : Type} (c : ResponseCache α) :
    List (CacheOp α) → Option (ResponseCache α)
  | [] => some c
  | op :: rest =>
      match applyCacheOp c op with
      | none => none
      | some c' => runCacheOps c' rest

/-! ## `ai_backend_advanced.py` — `ContextManager` -/

/-- One conversation turn, as built by `ContextManager.add_turn`
(`{'timestamp': ..., 'user': ..., 'assistant': ...}`). -/
structure Turn where
  timestamp : Nat
  user : String
  assistant : String
  deriving Repr, DecidableEq

/-- `ContextManager`: bounded conversation history. -/
structure ContextManager where
  history : List Turn
  max_history : Nat
  deriving Repr, DecidableEq

/-- `ContextManager.__init__(max_history)`. -/
def ContextManager.init (max_history : Nat) : ContextManager :=
  { history := [], max_history := max_history }

/-- `ContextManager.add_turn`: append the new turn, then `pop(0)` exactly
once when the length exceeds `max_history`. -/
def ContextManager.add_turn (cm : ContextManager) (user assistant : String)
    (now : Nat) : ContextManager :=
  let h := cm.history ++ [{ timestamp := now, user := user, assistant := assistant }]
  { cm with history := if cm.max_history < h.length then h.drop 1 else h }

/-- Fold a list of `(now, user, assistant)` triples through `add_turn`. -/
def ContextManager.add_turns (cm : ContextManager) :
    List (Nat × String × String) → ContextManager
  | [] => cm
  | t :: rest => (cm.add_turn t.2.1 t.2.2 t.1).add_turns rest

/-- The turn recorded for a `(now, user, assistant)` triple. -/
def mkTurn (t : Nat × String × String) : Turn :=
  { timestamp := t.1, user := t.2.1, assistant := t.2.2 }

/-- A manager whose history already exceeds its bound (`max_history = 1`,
two stored turns); used to refute the unrestricted form of claim C7. -/
def cm7bad : ContextManager :=
  { history := [{ timestamp := 0, user := "a", assistant := "b" },
                { timestamp := 1, user := "c", assistant := "d" }],
    max_history := 1 }

/-- Six turns (`max_history + 5` for `cm7bad`). -/
def adds6 : List (Nat × String × String) :=
  [(2, "u", "v"), (3, "u", "v"), (4, "u", "v"),
   (5, "u", "v"), (6, "u", "v"), (7, "u", "v")]

/-- Seven turns (`max_history + 5` for a bound of 2). -/
def adds7 : List (Nat × String × String) :=
  [(1, "u1", "v1"), (2, "u2", "v2"), (3, "u3", "v3"), (4, "u4", "v4"),
   (5, "u5", "v5"), (6, "u6", "v6"), (7, "u7", "v7")]

/-! ## `enhanced-security.py` — `SudoSession`, `EnhancedSecurityManager` -/

namespace EnhSec

/-- `SudoSession` of `enhanced-security.py`: start time, duration and the
`is_active` flag; `end_time` is derived. -/
structure SudoSession where
  start_time : Int
  duration : Int
  is_active : Bool
  deriving Repr, DecidableEq

/-- `self.end_time = self.start_time + self.duration`. -/
def SudoSession.end_time (s : SudoSession) : Int := s.start_time + s.duration

/-- `SudoSession.__init__(duration_seconds)` at time `now`. -/
def SudoSession.make (duration_seconds now : Int) : SudoSession :=
  { start_time := now, duration := duration_seconds, is_active := true }

/-- `SudoSession.is_valid`, including its in-place `is_active := False`
update once `datetime.now() > self.end_time`. -/
def SudoSession.is_valid (s : SudoSession) (now : Int) : Bool × SudoSession :=
  if s.is_active = false then (false, s)
  else if s.end_time < now then (false, { s with is_active := false })
  else (true, s)

/-- `SudoSession.get_remaining_time`: 0 when invalid, otherwise
`max(0, int(end_time - now))`. -/
def SudoSession.get_remaining_time (s : SudoSession) (now : Int) :
    Int × SudoSession :=
  match s.is_valid now with
  | (false, s') => (0, s')
  | (true, s') => (max 0 (s.end_time - now), s')

/-- The `dangerous_commands` list from `EnhancedSecurityManager.__init__`. -/
def dangerous_commands_default : List String :=
  ["rm -rf", "dd if=", "mkfs", "fdisk", "shutdown", "reboot", "halt",
   "kill -9", "pkill -9", "chmod 777", "chown", "usermod", "userdel"]

/-- The `security` section of the configuration snapshot, as read by
`EnhancedSecurityManager.__init__` (`None` = key absent). -/
structure SecurityConfig where
  sudo_keyword : Option String
  sudo_mode_duration : Option Int
  allow_custom_sudo : Option Bool
  allow_timed_sudo : Option Bool
  deriving Repr, DecidableEq

/-- `EnhancedSecurityManager` state. -/
structure EnhancedSecurityManager where
  sudo_keyword : String
  default_sudo_duration : Int
  allow_custom_sudo : Bool
  allow_timed_sudo : Bool
  current_session : Option SudoSession
  dangerous_commands : List String
  deriving Repr, DecidableEq

/-- `EnhancedSecurityManager.__init__`: reads the configuration with
defaults, performs no validation of any value, and never fails. -/
def EnhancedSecurityManager.init (cfg : SecurityConfig) :
    EnhancedSecurityManager :=
  { sudo_keyword := cfg.sudo_keyword.getD "sudo code 0",
    default_sudo_duration := cfg.sudo_mode_duration.getD 300,
    allow_custom_sudo := cfg.allow_custom_sudo.getD true,
    allow_timed_sudo := cfg.allow_timed_sudo.getD true,
    current_session := none,
    dangerous_commands := dangerous_commands_default }

/-- The first token following a `"code"` token that has a successor — the
token whose `int(...)` the `for` loop in `parse_sudo_keyword` attempts
(a failed `int` aborts the whole loop via the surrounding `except`). -/
def findCodeArg : List String → Option String
  | [] => none
  | a :: rest =>
      if a = "code" then
        match rest with
        | [] => none
        | b :: _ => some b
      else findCodeArg rest

/-- `parse_sudo_keyword`: keyword containment, then the timed
`"sudo code N"` variant, then the exact custom-keyword match. -/
def parse_sudo_keyword (m : EnhancedSecurityManager) (user_input : String) :
    Bool × Int × Option String :=
  let user_lower := pyStrip (pyLower user_input)
  if pyIn (pyLower m.sudo_keyword) user_lower then
    (true, m.default_sudo_duration, some "Default sudo access")
  else
    let custom :=
      if m.allow_custom_sudo && user_lower == pyLower m.sudo_keyword then
        (true, m.default_sudo_duration, some "Custom sudo access")
      else (false, 0, none)
    if m.allow_timed_sudo && pyIn "sudo code" user_lower then
      match findCodeArg (pySplitWs user_lower) with
      | some tok =>
          match pyInt? tok with
          | some t =>
              if 0 < t ∧ t ≤ 3600 then
                (true, t, some ("Sudo access for " ++ toString t ++ "s"))
              else (false, 0, some "Invalid time (max 1 hour)")
          | none => custom
      | none => custom
    else custom

/-- `activate_sudo_mode`: refuses while a valid session exists (reporting
the remaining time), otherwise installs a fresh session; `duration or
default` means a `0` or absent duration falls back to the default. -/
def activate_sudo_mode (m : EnhancedSecurityManager)
    (duration_seconds : Option Int) (now : Int) :
    (Bool × String) × EnhancedSecurityManager :=
  let fresh : (Bool × String) × EnhancedSecurityManager :=
    let duration :=
      match duration_seconds with
      | none => m.default_sudo_duration
      | some d => if d = 0 then m.default_sudo_duration else d
    let duration_str :=
      if duration < 60 then toString duration ++ " seconds"
      else if duration < 3600 then toString (duration / 60) ++ " minutes"
      else toString (duration / 3600) ++ " hour(s)"
    ((true, "✓ Sudo mode activated for " ++ duration_str),
      { m with current_session := some (SudoSession.make duration now) })
  match m.current_session with
  | some s =>
      match s.is_valid now with
      | (true, _) =>
          ((false, "Sudo mode already active for " ++
            toString (s.get_remaining_time now).1 ++ " more seconds"), m)
      | (false, _) => fresh
  | none => fresh

/-- `is_sudo_active`. -/
def is_sudo_active (m : EnhancedSecurityManager) (now : Int) :
    Bool × EnhancedSecurityManager :=
  match m.current_session with
  | none => (false, m)
  | some s =>
      let r := s.is_valid now
      (r.1, { m with current_session := some r.2 })

/-- `check_dangerous_command`: case-insensitive substring match against
`dangerous_commands`; the warning quotes the command, not the pattern. -/
def check_dangerous_command (m : EnhancedSecurityManager) (command : String) :
    Bool × Option String :=
  if m.dangerous_commands.any (fun d => pyIn (pyLower d) (pyLower command)) then
    (true, some ("⚠️ WARNING: This command is potentially dangerous!\nCommand: "
      ++ command))
  else (false, none)

/-- Outcome of `execute_with_sudo`, up to the `subprocess.run` boundary. -/
inductive SudoExecResult where
  | refused (message : String)
  | runs (argv : List String)
  deriving Repr, DecidableEq

/-- `execute_with_sudo`: requires an active session, then refuses any
dangerous command unconditionally; only then does the command reach
`subprocess.run(['sudo'] + command.split())`. -/
def execute_with_sudo (m : EnhancedSecurityManager) (command : String)
    (now : Int) : SudoExecResult × EnhancedSecurityManager :=
  let a := is_sudo_active m now
  if a.1 = false then
    (.refused "❌ Sudo mode not active. Say 'sudo code 0' first.", a.2)
  else
    let dc := check_dangerous_command a.2 command
    if dc.1 then
      (.refused ((dc.2.getD "None") ++
        "\n\nThis command will NOT be executed for safety reasons."), a.2)
    else (.runs ("sudo" :: pySplitWs command), a.2)

end EnhSec

/-! ## `jarvis/security.py` — `SudoSession`, `SecurityChecker`; and the
`_execute_shell` slice of `jarvis/command_executor.py` -/

namespace JarvisSec

/-- `SudoSession` of `jarvis/security.py`. -/
structure SudoSession where
  duration_seconds : Int
  session_start : Option Int
  active : Bool
  deriving Repr, DecidableEq

/-- `SudoSession.__init__(duration_seconds)`. -/
def SudoSession.init (duration_seconds : Int) : SudoSession :=
  { duration_seconds := duration_seconds, session_start := none, active := false }

/-- `deactivate`. -/
def SudoSession.deactivate (s : SudoSession) : SudoSession :=
  { s with active := false, session_start := none }

/-- `is_valid`, with the lazy deactivation once
`elapsed > duration_seconds`. -/
def SudoSession.is_valid (s : SudoSession) (now : Int) : Bool × SudoSession :=
  if s.active = false then (false, s)
  else
    match s.session_start with
    | none => (false, s)
    | some st =>
        if s.duration_seconds < now - st then (false, s.deactivate)
        else (true, s)

/-- `activate`: returns `False` (leaving the session untouched) while an
active, valid session exists; otherwise starts a new one at `now`. -/
def SudoSession.activate (s : SudoSession) (now : Int) : Bool × SudoSession :=
  if s.active then
    match s.is_valid now with
    | (true, s') => (false, s')
    | (false, s') => (true, { s' with session_start := some now, active := true })
  else (true, { s with session_start := some now, active := true })

/-- `remaining_time`. -/
def SudoSession.remaining_time (s : SudoSession) (now : Int) :
    Int × SudoSession :=
  match s.is_valid now with
  | (false, s') => (0, s')
  | (true, s') =>
      match s.session_start with
      | none => (0, s')
      | some st => (max 0 (s.duration_seconds - (now - st)), s')

/-- Default dangerous keyword list of `SecurityChecker.__init__` (the fork
bomb's braces are written as `\x7b`/`\x7d`). -/
def dangerous_keywords_default : List String :=
  ["rm -rf", "mkfs", ":()\x7b:|:&\x7d;:", "shutdown -h now", "reboot",
   "poweroff", "dd if=", "format c:"]

/-- `SecurityChecker`. -/
structure SecurityChecker where
  dangerous_keywords : List String
  deriving Repr, DecidableEq

/-- `SecurityChecker.__init__`: `dangerous_keywords or [ ... ]` — both
`None` and the empty list fall back to the default list. -/
def SecurityChecker.init (ks : Option (List String)) : SecurityChecker :=
  { dangerous_keywords :=
      match ks with
      | some l => if l = [] then dangerous_keywords_default else l
      | none => dangerous_keywords_default }

/-- `is_dangerous`: case-insensitive substring test against the list. -/
def SecurityChecker.is_dangerous (sc : SecurityChecker) (command : String) :
    Bool :=
  sc.dangerous_keywords.any (fun k => pyIn (pyLower k) (pyLower command))

/-- `check_command`: empty commands are rejected; dangerous commands are
allowed exactly when `sudo_active`; everything else is safe.  Neither
reason string names the matched pattern. -/
def SecurityChecker.check_command (sc : SecurityChecker) (command : String)
    (sudo_active : Bool) : Bool × String :=
  if command = "" || pyStrip command = "" then (false, "Empty command")
  else if sc.is_dangerous command then
    if sudo_active then (true, "Allowed under sudo session")
    else (false, "Command contains dangerous keywords and sudo not active")
  else (true, "Command is safe")

/-- The slice of `CommandExecutor` state that `_execute_shell` reads. -/
structure CommandExecutor where
  allow_system_commands : Bool
  security_checker : SecurityChecker
  sudo_session : SudoSession
  deriving Repr, DecidableEq

/-- Outcome of `_execute_shell`, up to the `subprocess.run` boundary. -/
inductive ShellOutcome where
  | blocked (reason : String)
  | runs (command : String)
  deriving Repr, DecidableEq

/-- `CommandExecutor._execute_shell` up to the subprocess call: the
`allow_system_commands` flag, then `check_command` with the live
sudo-session state; the command string reaches `subprocess.run` only when
allowed. -/
def CommandExecutor.execute_shell (ce : CommandExecutor) (command : String)
    (now : Int) : ShellOutcome × CommandExecutor :=
  if ce.allow_system_commands = false then
    (.blocked "System commands are disabled", ce)
  else
    let v := ce.sudo_session.is_valid now
    let ce1 := { ce with sudo_session := v.2 }
    let r := ce.security_checker.check_command command v.1
    if r.1 = false then (.blocked r.2, ce1)
    else (.runs command, ce1)

end JarvisSec

/-! ## `jarvis/command_executor.py` — `CommandIntent` and `parse_intent`

The five regular-expression templates are compiled by hand into
backtracking matchers over the character list.  Ordered alternative lists
reproduce the engine's preferences: greedy quantifiers try the longest
consumption first, optional groups try the consumed variant first, and
nested `findSome?` backtracks the most recent choice point first, scanning
start positions left to right (`re.search`). -/

namespace CmdExec

/-- A Python value passed to `parse_intent` (the function guards against
empty and non-string inputs). -/
inductive PyVal where
  | pyStr (s : String)
  | pyNone
  | pyInt (n : Int)
  | pyBool (b : Bool)
  deriving Repr, DecidableEq

/-- Python truthiness of a `PyVal`. -/
def PyVal.truthy : PyVal → Bool
  | .pyStr s => s ≠ ""
  | .pyNone => false
  | .pyInt n => n ≠ 0
  | .pyBool b => b

/-- `isinstance(v, str)`. -/
def PyVal.isStr : PyVal → Bool
  | .pyStr _ => true
  | _ => false

/-- `CommandIntent(intent_type, action, params)`. -/
structure CommandIntent where
  intent_type : String
  action : String
  params : List (String × String)
  deriving Repr, DecidableEq

/-- `s.startswith(pre)`. -/
def pyStartsWith (s pre : String) : Bool := pre.data.isPrefixOf s.data

/-- `String.mk (s.data.drop n)`: Python slicing `s[n:]` by characters. -/
def strDrop (s : String) (n : Nat) : String := String.mk (s.data.drop n)

/-- Case-insensitive match of a (lowercase) literal at the head; returns
the remaining input. -/
def ciLit : List Char → List Char → Option (List Char)
  | [], cs => some cs
  | _ :: _, [] => none
  | p :: ps, c :: cs => if lowerCh c = p then ciLit ps cs else none

/-- The suffixes obtained by consuming `\s+`: longest consumption first
(greedy), at least one character. -/
def wsPlusRests (cs : List Char) : List (List Char) :=
  let n := (cs.takeWhile isPyWs).length
  (List.range n).map (fun i => cs.drop (n - i))

/-- Alternatives for an optional quote `(["\']?)`: the consumed quote
first (greedy), then the empty option. -/
def quoteAlts (cs : List Char) : List (Option Char × List Char) :=
  match cs with
  | c :: rest =>
      if c = '"' ∨ c = '\'' then [(some c, rest), (none, cs)]
      else [(none, cs)]
  | [] => [(none, [])]

/-- Alternatives for a greedy `[^…]+` with the given exclusion test:
longest nonempty capture first, paired with the remaining input. -/
def runTakes (excl : Char → Bool) (cs : List Char) :
    List (List Char × List Char) :=
  let run := cs.takeWhile (fun c => !(excl c))
  (List.range run.length).map
    (fun i => (run.take (run.length - i), cs.drop (run.length - i)))

/-- Alternatives for `(?:word\s+)?` (case-insensitive): the consumed
variant first (greedy), then the empty option. -/
def optWordRests (word : List Char) (cs : List Char) : List (List Char) :=
  (match ciLit word cs with
   | some r => wsPlusRests r
   | none => []) ++ [cs]

/-- A quote character. -/
def isQuote (c : Char) : Bool := c = '"' || c = '\''

/-- `(["\']?)([^"\']+)\N` — optional quote, greedy non-quote run, matching
back-reference; returns the captured name. -/
def quoteNameTail (cs : List Char) : Option String :=
  (quoteAlts cs).findSome? fun q =>
    (runTakes isQuote q.2).findSome? fun cap =>
      match q.1 with
      | some qc =>
          match cap.2 with
          | c :: _ => if c = qc then some (String.mk cap.1) else none
          | [] => none
      | none => some (String.mk cap.1)

/-- `(edit|open)\s+(?:file\s+)?(["\']?)([^"\']+)\2` anchored at the head;
returns group 3 (the filename). -/
def fileCaptureAt (cs : List Char) : Option String :=
  ["edit".data, "open".data].findSome? fun kw =>
    (ciLit kw cs).bind fun r1 =>
      (wsPlusRests r1).findSome? fun r2 =>
        (optWordRests "file".data r2).findSome? fun r3 =>
          quoteNameTail r3

/-- `download\s+(?:from\s+)?([^\s]+)` anchored at the head. -/
def downloadCaptureAt (cs : List Char) : Option String :=
  (ciLit "download".data cs).bind fun r1 =>
    (wsPlusRests r1).findSome? fun r2 =>
      (optWordRests "from".data r2).findSome? fun r3 =>
        (runTakes isPyWs r3).findSome? fun cap => some (String.mk cap.1)

/-- `(?:open|launch|start)\s+(["\']?)([^"\']+)\1` anchored at the head. -/
def appCaptureAt (cs : List Char) : Option String :=
  ["open".data, "launch".data, "start".data].findSome? fun kw =>
    (ciLit kw cs).bind fun r1 =>
      (wsPlusRests r1).findSome? fun r2 =>
        quoteNameTail r2

/-- `click\s+(?:on\s+)?([^,]+)` anchored at the head. -/
def clickCaptureAt (cs : List Char) : Option String :=
  (ciLit "click".data cs).bind fun r1 =>
    (wsPlusRests r1).findSome? fun r2 =>
      (optWordRests "on".data r2).findSome? fun r3 =>
        (runTakes (fun c => c = ',') r3).findSome? fun cap =>
          some (String.mk cap.1)

/-- `type\s+(["\']?)([^"\']+)\1` anchored at the head. -/
def typeCaptureAt (cs : List Char) : Option String :=
  (ciLit "type".data cs).bind fun r1 =>
    (wsPlusRests r1).findSome? fun r2 =>
      quoteNameTail r2

/-- `re.search`: try the anchored matcher at every start position,
leftmost first. -/
def reSearchCap (f : List Char → Option String) (s : String) :
    Option String :=
  s.data.tails.findSome? f

/-- The string body of `parse_intent`: the ordered template cascade. -/
def parse_intent_str (command_text : String) : Option CommandIntent :=
  let cl := pyStrip (pyLower command_text)
  if pyStartsWith cl "run " || pyStartsWith cl "execute " ||
      pyStartsWith cl "shell " then
    some { intent_type := "shell",
           action := pyStrip (strDrop command_text
             (((pySplitWs cl).headD "").length + 1)),
           params := [] }
  else
    let tryFile :=
      if (pyIn "edit" cl || pyIn "open" cl) && pyIn "file" cl then
        (reSearchCap fileCaptureAt command_text).map
          (fun fn => { intent_type := "file", action := "edit",
                       params := [("filename", fn)] })
      else none
    let tryDownload :=
      if pyIn "download" cl then
        (reSearchCap downloadCaptureAt command_text).map
          (fun url => { intent_type := "download", action := "fetch",
                        params := [("url", url)] })
      else none
    let tryApp :=
      if pyIn "open" cl || pyIn "launch" cl || pyIn "start" cl then
        (reSearchCap appCaptureAt command_text).map
          (fun app => { intent_type := "app", action := "open",
                        params := [("app", app)] })
      else none
    let tryClick :=
      if pyIn "click" cl then
        (reSearchCap clickCaptureAt command_text).map
          (fun tg => { intent_type := "gui", action := "click",
                       params := [("target", pyStrip tg)] })
      else none
    let tryScroll :=
      if pyIn "scroll" cl then
        some { intent_type := "gui", action := "scroll",
               params := [("direction",
                 if pyIn "down" cl then "down"
                 else if pyIn "up" cl then "up" else "down")] }
      else none
    let tryType :=
      if pyIn "type" cl then
        (reSearchCap typeCaptureAt command_text).map
          (fun tx => { intent_type := "gui", action := "type",
                       params := [("text", tx)] })
      else none
    tryFile <|> tryDownload <|> tryApp <|> tryClick <|> tryScroll <|> tryType

/-- `parse_intent`: the guard
`if not command_text or not isinstance(command_text, str): return None`,
then the template cascade. -/
def parse_intent (command_text : PyVal) : Option CommandIntent :=
  if (!command_text.truthy) || (!command_text.isStr) then none
  else
    match command_text with
    | .pyStr s => parse_intent_str s
    | _ => none

end CmdExec

/-! ## `smart-router.py` — `TaskType` and `SmartRouter.detect_task_type`

The task-detection patterns are Python regular expressions built from
literals, alternation, `.`, `\d`, `\s`, character classes and the
quantifiers `?`, `+`, `*`.  They are embedded as a small regex type with
Brzozowski-derivative matching; `re.search` is boolean here (only
`bool(re.search(...))` is used), i.e. some substring matches. -/

namespace Router

/-- `TaskType`, in declaration order. -/
inductive TaskType where
  | research
  | code
  | math
  | creative
  | factual
  | system
  | general
  deriving Repr, DecidableEq

/-- Regular expressions, restricted to the constructs the router uses. -/
inductive RE where
  | emp
  | eps
  | ch (c : Char)
  | dot
  | digit
  | wsp
  | cls (cs : List Char)
  | anyc
  | seq (a b : RE)
  | alt (a b : RE)
  | star (a : RE)
  | opt (a : RE)
  deriving Repr, DecidableEq

/-- Smart `seq` constructor (keeps derivatives small). -/
def mkSeq (a b : RE) : RE :=
  match a, b with
  | .emp, _ => .emp
  | _, .emp => .emp
  | .eps, b => b
  | a, .eps => a
  | a, b => .seq a b

/-- Smart `alt` constructor. -/
def mkAlt (a b : RE) : RE :=
  match a, b with
  | .emp, b => b
  | a, .emp => a
  | a, b => .alt a b

/-- Does the expression accept the empty word? -/
def nullable : RE → Bool
  | .emp => false
  | .eps => true
  | .ch _ => false
  | .dot => false
  | .digit => false
  | .wsp => false
  | .cls _ => false
  | .anyc => false
  | .seq a b => nullable a && nullable b
  | .alt a b => nullable a || nullable b
  | .star _ => true
  | .opt _ => true

/-- Brzozowski derivative by one character (`.` excludes newline, `\d` is
a digit, `\s` is Python whitespace). -/
def deriv (r : RE) (c : Char) : RE :=
  match r with
  | .emp => .emp
  | .eps => .emp
  | .ch c' => if c' = c then .eps else .emp
  | .dot => if c = '\n' then .emp else .eps
  | .digit => if c.isDigit then .eps else .emp
  | .wsp => if isPyWs c then .eps else .emp
  | .cls cs => if cs.contains c then .eps else .emp
  | .anyc => .eps
  | .seq a b =>
      if nullable a then mkAlt (mkSeq (deriv a c) b) (deriv b c)
      else mkSeq (deriv a c) b
  | .alt a b => mkAlt (deriv a c) (deriv b c)
  | .star a => mkSeq (deriv a c) (.star a)
  | .opt a => deriv a c

/-- Whole-word acceptance. -/
def reFull (r : RE) (s : List Char) : Bool := nullable (s.foldl deriv r)

/-- `bool(re.search(r, s))`: some substring of `s` matches `r`. -/
def reSearch (r : RE) (s : String) : Bool :=
  reFull (mkSeq (.star .anyc) (mkSeq r (.star .anyc))) s.data

/-- A literal. -/
def reLit (s : String) : RE :=
  s.data.foldr (fun c r => mkSeq (.ch c) r) .eps

/-- Alternation of a list (left-to-right). -/
def reAlts (l : List RE) : RE :=
  match l with
  | [] => .emp
  | r :: rest => rest.foldl mkAlt r

/-- `r+`. -/
def rePlus (r : RE) : RE := mkSeq r (.star r)

/-- `self.task_patterns`, transcribed pattern by pattern from
`SmartRouter.__init__` in declaration order. -/
def task_patterns : List (TaskType × List RE) :=
  [(TaskType.research,
    [reAlts [reLit "research", reLit "find", reLit "search", reLit "look up",
      reLit "investigate", reLit "explore", reLit "discover",
      reLit "learn about"],
     reAlts [mkSeq (reLit "what") (mkSeq (.opt (.ch '\''))
        (mkSeq (.opt (.ch 's')) (reLit " the latest"))),
      reLit "recent", reLit "current", reLit "up to date"],
     reAlts [reLit "tell me about", reLit "information about",
      reLit "facts about"]]),
   (TaskType.code,
    [reAlts [reLit "code", reLit "write", reLit "implement", reLit "function",
      reLit "class", reLit "script", reLit "program", reLit "snippet"],
     reAlts [mkSeq (reLit "how to") (mkSeq (.star .dot) (reLit "python")),
      reLit "javascript", reLit "java", reLit "c++", reLit "rust", reLit "go"],
     reAlts [mkSeq (reLit "solve") (mkSeq (.star .dot) (reLit "problem")),
      reLit "algorithm", reLit "data structure"]]),
   (TaskType.math,
    [reAlts [reLit "calculate", reLit "solve", reLit "equation",
      reLit "integral", reLit "derivative", reLit "matrix", reLit "algebra",
      reLit "geometry"],
     reAlts [reLit "math", reLit "formula", reLit "proof", reLit "theorem",
      reLit "logic", reLit "reasoning"],
     reAlts [mkSeq (reLit "what") (mkSeq (.opt (.ch '\''))
        (mkSeq (.opt (.ch 's')) (mkSeq (.opt (.ch ' '))
          (mkSeq (rePlus .digit) (mkSeq (.star .wsp)
            (.cls ['+', '-', '*', '/'])))))),
      reLit "calculus", reLit "linear algebra"]]),
   (TaskType.creative,
    [reAlts [reLit "write", reLit "story", reLit "poem", reLit "song",
      reLit "creative", reLit "fiction", reLit "imagine", reLit "invent"],
     reAlts [reLit "description", reLit "narrative", reLit "dialogue",
      reLit "script", reLit "play"],
     reAlts [mkSeq (reLit "make") (mkSeq (.star .dot) (reLit "funny")),
      reLit "joke", reLit "pun", reLit "humorous"]]),
   (TaskType.factual,
    [reAlts [reLit "fact", reLit "true", reLit "history", reLit "biography",
      reLit "definition", reLit "who", reLit "what is", reLit "explain"],
     reAlts [reLit "when", reLit "where", reLit "how many",
      reLit "population", reLit "capital", reLit "president"],
     reAlts [reLit "definition of", reLit "meaning of", reLit "do you know"]]),
   (TaskType.system,
    [reAlts [reLit "system", reLit "command", reLit "shell", reLit "terminal",
      reLit "execute", reLit "run", reLit "install", reLit "configure"],
     reAlts [reLit "sudo", reLit "root", reLit "permission", reLit "access",
      reLit "security", reLit "firewall"],
     reAlts [reLit "linux", reLit "ubuntu", reLit "debian", reLit "fedora",
      reLit "arch"]])]

/-- Per-category scores in declaration order: how many of the category's
patterns match the lower-cased query. -/
def scoresOf (query : String) : List (TaskType × Nat) :=
  task_patterns.map (fun p =>
    (p.1, (p.2.filter (fun r => reSearch r (pyLower query))).length))

/-- Python's `max(scores.values())` (scores are `Nat`, so a 0 seed is
exact). -/
def maxVal (l : List (TaskType × Nat)) : Nat :=
  (l.map Prod.snd).foldl max 0

/-- Python's `max(scores, key=scores.get)` over insertion order: the
current best is replaced only by a strictly greater value, so the first
maximum wins. -/
def pyMaxKey : List (TaskType × Nat) → Option TaskType
  | [] => none
  | x :: rest =>
      some ((rest.foldl (fun b y => if y.2 > b.2 then y else b) x).1)

/-- `SmartRouter.detect_task_type`. -/
def detect_task_type (query : String) : TaskType :=
  let scores := scoresOf query
  if 0 < maxVal scores then (pyMaxKey scores).getD TaskType.general
  else TaskType.general

end Router

/-! ## Concrete security values used by witnesses and counterexamples -/

/-- The manager produced from an empty configuration section: keyword
`"sudo code 0"`, default duration 300. -/
def mgrDefault : EnhSec.EnhancedSecurityManager :=
  EnhSec.EnhancedSecurityManager.init
    { sudo_keyword := none, sudo_mode_duration := none,
      allow_custom_sudo := none, allow_timed_sudo := none }

/-- A session of 60 seconds started at time 0. -/
def sessW : EnhSec.SudoSession :=
  { start_time := 0, duration := 60, is_active := true }

/-- `mgrDefault` with `sessW` installed as the current session. -/
def mgrActive : EnhSec.EnhancedSecurityManager :=
  { mgrDefault with current_session := some sessW }

/-- A valid `jarvis/security.py` session: 60 seconds, started at 0. -/
def jsW : JarvisSec.SudoSession :=
  { duration_seconds := 60, session_start := some 0, active := true }

/-- A `SecurityChecker` built with the default keyword list. -/
def scW : JarvisSec.SecurityChecker := JarvisSec.SecurityChecker.init none

/-- A corrupted configuration snapshot: negative default duration. -/
def cfgBad : EnhSec.SecurityConfig :=
  { sudo_keyword := none, sudo_mode_duration := some (-5),
    allow_custom_sudo := none, allow_timed_sudo := none }

/-- The trigger condition exactly as claim C3 words it (spec side, for the
counterexample): the input text — compared after the parser's own
lower-casing and stripping — is the exact configured keyword, or the
keyword followed by a single integer token `N` with `0 < N ≤ 3600`. -/
def c3ClaimedTrigger (m : EnhSec.EnhancedSecurityManager)
    (input : String) : Prop :=
  pyStrip (pyLower input) = pyLower m.sudo_keyword ∨
  ∃ n : Int, 0 < n ∧ n ≤ 3600 ∧
    pyStrip (pyLower input) = pyLower m.sudo_keyword ++ " " ++ toString n

/-! ## Concrete cache values used by the cache witnesses -/

/-- An empty cache of capacity 2 over `Nat` payloads. -/
def cacheW0 : ResponseCache Nat := ResponseCache.init Nat 2

/-- `cacheW0` after `set("Hi ", 42, ttl=7)` at time 100. -/
def cacheW1 : ResponseCache Nat :=
  { cache := [("hi", { query := "hi", response := 42, created_at := 100, ttl := 7 })],
    max_entries := 2 }

/-- A cache at capacity 2, whose oldest entry is `"b"` (created at 3). -/
def cacheC5 : ResponseCache Nat :=
  { cache := [("a", { query := "a", response := 1, created_at := 5, ttl := 10 }),
              ("b", { query := "b", response := 2, created_at := 3, ttl := 10 })],
    max_entries := 2 }

/-- Operation sequence for the size-bound witness: two sets and a get on a
capacity-1 cache. -/
def c10ops : List (CacheOp Nat) :=
  [CacheOp.setOp "a" 1 10 0, CacheOp.setOp "b" 2 10 1, CacheOp.getOp "a" 2]

/-- The cache produced by running `c10ops` on an empty capacity-1 cache. -/
def c10res : ResponseCache Nat :=
  { cache := [("b", { query := "b", response := 2, created_at := 1, ttl := 10 })],
    max_entries := 1 }

/-! ## Dictionary and cache lemmas -/

theorem dictGet_dictSet_self {β : Type} (l : List (String × β)) (k : String)
    (v : β) : dictGet (dictSet l k v) k = some v := by
  induction l with
  | nil => simp [dictSet, dictGet]
  | cons p rest ih =>
    by_cases h : p.1 = k
    · simp [dictSet, dictGet, h]
    · simp [dictSet, dictGet, h, ih]

theorem mem_dictSet {β : Type} (l : List (String × β)) (k : String) (v : β) :
    ∀ x ∈ dictSet l k v, x.2 = v ∨ x ∈ l := by
  induction l with
  | nil => simp [dictSet]
  | cons p rest ih =>
    intro x hx
    by_cases h : p.1 = k
    · simp only [dictSet, if_pos h, List.mem_cons] at hx
      rcases hx with h1 | h2
      · exact Or.inl (by rw [h1])
      · exact Or.inr (List.mem_cons_of_mem _ h2)
    · simp only [dictSet, if_neg h, List.mem_cons] at hx
      rcases hx with h1 | h2
      · exact Or.inr (by rw [h1]; exact List.mem_cons_self _ _)
      · rcases ih x h2 with h3 | h4
        · exact Or.inl h3
        · exact Or.inr (List.mem_cons_of_mem _ h4)

theorem mem_dictDel {β : Type} (l : List (String × β)) (k : String) :
    ∀ x ∈ dictDel l k, x ∈ l := by
  induction l with
  | nil => simp [dictDel]
  | cons p rest ih =>
    intro x hx
    by_cases h : p.1 = k
    · simp only [dictDel, if_pos h] at hx
      exact List.mem_cons_of_mem _ hx
    · simp only [dictDel, if_neg h, List.mem_cons] at hx
      rcases hx with h1 | h2
      · exact h1 ▸ List.mem_cons_self _ _
      · exact List.mem_cons_of_mem _ (ih x h2)

theorem length_dictSet_le {β : Type} (l : List (String × β)) (k : String)
    (v : β) : (dictSet l k v).length ≤ l.length + 1 := by
  induction l with
  | nil => simp [dictSet]
  | cons p rest ih =>
    by_cases h : p.1 = k
    · simp [dictSet, h]
    · simp only [dictSet, if_neg h, List.length_cons]
      omega

theorem length_dictDel_le {β : Type} (l : List (String × β)) (k : String) :
    (dictDel l k).length ≤ l.length := by
  induction l with
  | nil => simp [dictDel]
  | cons p rest ih =>
    by_cases h : p.1 = k
    · simp [dictDel, h]
    · simp only [dictDel, if_neg h, List.length_cons]
      omega

theorem length_dictDel_of_mem {β : Type} (l : List (String × β)) (k : String)
    (v : β) (hm : (k, v) ∈ l) : (dictDel l k).length + 1 = l.length := by
  induction l with
  | nil => simp at hm
  | cons p rest ih =>
    by_cases h : p.1 = k
    · simp [dictDel, h]
    · have hm' : (k, v) ∈ rest := by
        rcases List.mem_cons.mp hm with h1 | h2
        · exact absurd (congrArg Prod.fst h1.symm) h
        · exact h2
      have h6 := ih hm'
      simp only [dictDel, if_neg h, List.length_cons]
      omega

/-- The fold inside `minCreatedKey` returns an element of the list that
attains the minimal `created_at`. -/
theorem minFold_mem_le {α : Type} (rest : List (String × CachedResponse α))
    (p : String × CachedResponse α) :
    (rest.foldl
        (fun b x => if x.2.created_at < b.2.created_at then x else b) p)
      ∈ p :: rest ∧
    ∀ x ∈ p :: rest,
      (rest.foldl
          (fun b x => if x.2.created_at < b.2.created_at then x else b)
          p).2.created_at ≤ x.2.created_at := by
  induction rest generalizing p with
  | nil => simp
  | cons y t ih =>
    by_cases h : y.2.created_at < p.2.created_at
    · simp only [List.foldl_cons, if_pos h]
      obtain ⟨hmem, hle⟩ := ih y
      constructor
      · rcases List.mem_cons.mp hmem with h1 | h2
        · rw [h1]
          exact List.mem_cons_of_mem _ (List.mem_cons_self _ _)
        · exact List.mem_cons_of_mem _ (List.mem_cons_of_mem _ h2)
      · intro x hx
        rcases List.mem_cons.mp hx with h1 | h2
        · have h3 := hle y (List.mem_cons_self _ _)
          rw [h1]
          omega
        · exact hle x h2
    · simp only [List.foldl_cons, if_neg h]
      obtain ⟨hmem, hle⟩ := ih p
      constructor
      · rcases List.mem_cons.mp hmem with h1 | h2
        · rw [h1]
          exact List.mem_cons_self _ _
        · exact List.mem_cons_of_mem _ (List.mem_cons_of_mem _ h2)
      · intro x hx
        rcases List.mem_cons.mp hx with h1 | h2
        · rw [h1]
          exact hle p (List.mem_cons_self _ _)
        · rcases List.mem_cons.mp h2 with h3 | h4
          · have h5 := hle p (List.mem_cons_self _ _)
            rw [h3]
            omega
          · exact hle x (List.mem_cons_of_mem _ h4)

/-- `minCreatedKey` of a nonempty store is the key of an entry of minimal
`created_at`. -/
theorem minCreatedKey_spec {α : Type} (l : List (String × CachedResponse α))
    (h : l ≠ []) :
    ∃ k e, minCreatedKey l = some k ∧ (k, e) ∈ l ∧
      ∀ x ∈ l, e.created_at ≤ x.2.created_at := by
  match l, h with
  | p :: rest, _ =>
    obtain ⟨hmem, hle⟩ := minFold_mem_le rest p
    exact ⟨_, _, rfl, by simpa using hmem, hle⟩

/-- `get` unfolded: lookup under the normalised key, validity test,
deletion of an expired entry. -/
theorem get_eq {α : Type} (d : ResponseCache α) (s : String) (u : Nat) :
    d.get s u =
      match dictGet d.cache (normKey s) with
      | some e =>
          if e.is_valid u then (some e.response, d)
          else (none, { d with cache := dictDel d.cache (normKey s) })
      | none => (none, d) := rfl

/-- Any successful `set` rewrites the store to `dictSet l key entry` for a
fresh entry, where `l` consists of previous entries. -/
theorem set_shape {α : Type} (c : ResponseCache α) (q : String) (r : α)
    (ttl now : Nat) (c' : ResponseCache α)
    (h : c.set q r ttl now = some c') :
    c'.max_entries = c.max_entries ∧
    ∃ l, (∀ x ∈ l, x ∈ c.cache) ∧
      c'.cache = dictSet l (normKey q)
        { query := normKey q, response := r, created_at := now, ttl := ttl } := by
  simp only [ResponseCache.set] at h
  by_cases hcap : c.max_entries ≤ c.cache.length
  · rw [if_pos hcap] at h
    cases hmk : minCreatedKey c.cache with
    | none =>
      rw [hmk] at h
      exact absurd h (by simp)
    | some k =>
      rw [hmk] at h
      simp only [Option.some.injEq] at h
      subst h
      exact ⟨rfl, dictDel c.cache k, fun x hx => mem_dictDel _ _ x hx, rfl⟩
  · rw [if_neg hcap] at h
    simp only [Option.some.injEq] at h
    subst h
    exact ⟨rfl, c.cache, fun x hx => hx, rfl⟩

/-- Claim C4: after `set(query, payload, ttl)` at time `now`, a `get` of any
query with the same normalisation returns the payload unchanged at every
time `t < now + ttl`, misses at every `t ≥ now + ttl` while deleting the
expired entry, and in general a `get` never returns a payload from an
entry that is not valid at lookup time. -/
theorem claim_C4_cache_ttl {α : Type} (c c' : ResponseCache α)
    (q q' : String) (payload : α) (ttl now : Nat)
    (hq : normKey q' = normKey q)
    (hset : c.set q payload ttl now = some c') :
    (∀ t, t < now + ttl → c'.get q' t = (some payload, c')) ∧
    (∀ t, now + ttl ≤ t → (c'.get q' t).1 = none ∧
        (c'.get q' t).2.cache = dictDel c'.cache (normKey q)) ∧
    (∀ (d : ResponseCache α) (s : String) (u : Nat) (r : α),
        (d.get s u).1 = some r →
        ∃ e, dictGet d.cache (normKey s) = some e ∧
          e.is_valid u = true ∧ e.response = r) := by
  obtain ⟨hmax, l, hsub, hc⟩ := set_shape c q payload ttl now c' hset
  have hget : dictGet c'.cache (normKey q) =
      some { query := normKey q, response := payload, created_at := now, ttl := ttl } := by
    rw [hc]
    exact dictGet_dictSet_self _ _ _
  refine ⟨?_, ?_, ?_⟩
  · intro t ht
    have hv : CachedResponse.is_valid
        { query := normKey q, response := payload, created_at := now, ttl := ttl } t = true := by
      simp only [CachedResponse.is_valid, decide_eq_true_eq]
      omega
    simp [get_eq, hq, hget, hv]
  · intro t ht
    have hv : CachedResponse.is_valid
        { query := normKey q, response := payload, created_at := now, ttl := ttl } t = false := by
      simp only [CachedResponse.is_valid, decide_eq_false_iff_not]
      omega
    refine ⟨by simp [get_eq, hq, hget, hv], ?_⟩
    simp only [get_eq, hq, hget, hv]
    simp
  · intro d s u r hr
    simp only [get_eq] at hr
    cases hd : dictGet d.cache (normKey s) with
    | none =>
      rw [hd] at hr
      simp at hr
    | some e =>
      rw [hd] at hr
      by_cases hv : e.is_valid u
      · simp [hv] at hr
        exact ⟨e, rfl, hv, hr⟩
      · simp [hv] at hr

/-- Witness for C4 at a concrete cache: ttl 7, set at time 100, hit at 106
(with the case/space-normalised query), miss at 107. -/
theorem claim_C4_cache_ttl_witness :
    cacheW1.get "HI" 106 = (some 42, cacheW1) ∧
    (cacheW1.get "HI" 107).1 = none := by
  have h := claim_C4_cache_ttl cacheW0 cacheW1 "Hi " "HI" 42 7 100
    (by decide) (by decide)
  exact ⟨h.1 106 (by decide), (h.2.1 107 (by decide)).1⟩

/-- Claim C5: a `set` on a cache at capacity evicts exactly an entry of
minimal `created_at` (never a newer one), then inserts the normalised key
with `created_at = now`; the re-set key therefore carries the youngest
timestamp afterwards (assuming existing stamps are `≤ now`). -/
theorem claim_C5_cache_eviction {α : Type} (c : ResponseCache α) (q : String)
    (r : α) (ttl now : Nat)
    (hfull : c.cache.length = c.max_entries)
    (hpos : 1 ≤ c.max_entries)
    (hmono : ∀ x ∈ c.cache, x.2.created_at ≤ now) :
    ∃ k e, minCreatedKey c.cache = some k ∧ (k, e) ∈ c.cache ∧
      (∀ x ∈ c.cache, e.created_at ≤ x.2.created_at) ∧
      c.set q r ttl now = some { c with cache :=
        (dictSet (dictDel c.cache k) (normKey q)
          { query := normKey q, response := r, created_at := now, ttl := ttl }) } ∧
      (∀ c', c.set q r ttl now = some c' →
        dictGet c'.cache (normKey q) =
          some { query := normKey q, response := r, created_at := now, ttl := ttl } ∧
        ∀ x ∈ c'.cache, x.2.created_at ≤ now) := by
  have hne : c.cache ≠ [] := by
    intro h0
    rw [h0] at hfull
    simp at hfull
    omega
  obtain ⟨k, e, hmk, hmem, hmin⟩ := minCreatedKey_spec c.cache hne
  refine ⟨k, e, hmk, hmem, hmin, ?_, ?_⟩
  · simp only [ResponseCache.set]
    rw [if_pos (le_of_eq hfull.symm), hmk]
  · intro c' hc'
    obtain ⟨hmax, l, hsub, hc⟩ := set_shape c q r ttl now c' hc'
    constructor
    · rw [hc]
      exact dictGet_dictSet_self _ _ _
    · intro x hx
      rw [hc] at hx
      rcases mem_dictSet _ _ _ x hx with h1 | h2
      · simp [h1]
      · exact hmono x (hsub x h2)

/-- Witness for C5: on `cacheC5` (capacity 2, oldest entry `"b"`), setting a
third key evicts exactly `"b"` and installs the fresh entry. -/
theorem claim_C5_cache_eviction_witness :
    ∃ k e, minCreatedKey cacheC5.cache = some k ∧ (k, e) ∈ cacheC5.cache ∧
      (∀ x ∈ cacheC5.cache, e.created_at ≤ x.2.created_at) ∧
      cacheC5.set "C" 9 10 7 = some { cacheC5 with cache :=
        (dictSet (dictDel cacheC5.cache k) (normKey "C")
          { query := normKey "C", response := 9, created_at := 7, ttl := 10 }) } ∧
      (∀ c', cacheC5.set "C" 9 10 7 = some c' →
        dictGet c'.cache (normKey "C") =
          some { query := normKey "C", response := 9, created_at := 7, ttl := 10 } ∧
        ∀ x ∈ c'.cache, x.2.created_at ≤ 7) :=
  claim_C5_cache_eviction cacheC5 "C" 9 10 7 (by decide) (by decide) (by decide)

/-- A single cache operation preserves the size bound and the capacity. -/
theorem cacheOp_preserves {α : Type} (c : ResponseCache α) (op : CacheOp α)
    (c' : ResponseCache α) (hpos : 1 ≤ c.max_entries)
    (hlen : c.cache.length ≤ c.max_entries)
    (h : applyCacheOp c op = some c') :
    c'.max_entries = c.max_entries ∧ c'.cache.length ≤ c.max_entries := by
  cases op with
  | clearOp =>
    simp only [applyCacheOp, Option.some.injEq] at h
    subst h
    exact ⟨rfl, by simp [ResponseCache.clear]⟩
  | getOp s u =>
    simp only [applyCacheOp, Option.some.injEq] at h
    subst h
    cases hd : dictGet c.cache (normKey s) with
    | none => simp [get_eq, hd, hlen]
    | some e =>
      by_cases hv : e.is_valid u
      · simp [get_eq, hd, hv, hlen]
      · simp only [get_eq, hd, hv]
        exact ⟨rfl, le_trans (length_dictDel_le _ _) hlen⟩
  | setOp s r ttl u =>
    simp only [applyCacheOp] at h
    simp only [ResponseCache.set] at h
    by_cases hcap : c.max_entries ≤ c.cache.length
    · have hne : c.cache ≠ [] := by
        intro h0
        rw [h0] at hcap
        simp at hcap
        omega
      obtain ⟨k, e, hmk, hmem, _⟩ := minCreatedKey_spec c.cache hne
      rw [if_pos hcap, hmk] at h
      simp only [Option.some.injEq] at h
      subst h
      refine ⟨rfl, ?_⟩
      have h1 := length_dictSet_le (dictDel c.cache k) (normKey s)
        { query := normKey s, response := r, created_at := u, ttl := ttl }
      have h2 := length_dictDel_of_mem c.cache k e hmem
      dsimp only
      omega
    · rw [if_neg hcap] at h
      simp only [Option.some.injEq] at h
      subst h
      refine ⟨rfl, ?_⟩
      have h1 := length_dictSet_le c.cache (normKey s)
        { query := normKey s, response := r, created_at := u, ttl := ttl }
      dsimp only
      omega

/-- Claim C10: starting from an empty cache of capacity `n ≥ 1`, no
sequence of `get`/`set`/`clear` operations ever leaves more than `n`
entries in the store. -/
theorem runCacheOps_bound {α : Type} (ops : List (CacheOp α)) :
    ∀ (c : ResponseCache α), 1 ≤ c.max_entries →
      c.cache.length ≤ c.max_entries →
      ∀ c', runCacheOps c ops = some c' →
        c'.max_entries = c.max_entries ∧
        c'.cache.length ≤ c.max_entries := by
  induction ops with
  | nil =>
    intro c hpos hcl c' h'
    simp only [runCacheOps, Option.some.injEq] at h'
    rw [← h']
    exact ⟨rfl, hcl⟩
  | cons op rest ih =>
    intro c hpos hcl c' h'
    simp only [runCacheOps] at h'
    cases hop : applyCacheOp c op with
    | none =>
      rw [hop] at h'
      exact absurd h' (by simp)
    | some c1 =>
      rw [hop] at h'
      obtain ⟨h1, h2⟩ := cacheOp_preserves c op c1 hpos hcl hop
      obtain ⟨h3, h4⟩ := ih c1 (by omega) (by omega) c' h'
      constructor
      · omega
      · omega

/-- Claim C10: starting from an empty cache of capacity `n ≥ 1`, no
sequence of `get`/`set`/`clear` operations ever leaves more than `n`
entries in the store. -/
theorem claim_C10_cache_bound {α : Type} (n : Nat) (hn : 1 ≤ n)
    (ops : List (CacheOp α)) (c' : ResponseCache α)
    (h : runCacheOps (ResponseCache.init α n) ops = some c') :
    c'.cache.length ≤ n := by
  have := runCacheOps_bound ops (ResponseCache.init α n) hn
    (by simp [ResponseCache.init]) c' h
  exact this.2

/-- Witness for C10: two sets and a get on a capacity-1 cache leave one
entry. -/
theorem claim_C10_cache_bound_witness : c10res.cache.length ≤ 1 :=
  claim_C10_cache_bound 1 (by decide) c10ops c10res (by decide)

/-! ## ContextManager theorems (claim C7) -/

/-- `add_turn` unfolded: append, then drop the front when the new length
exceeds the bound. -/
theorem add_turn_eq (cm : ContextManager) (u a : String) (now : Nat) :
    cm.add_turn u a now =
      { cm with history :=
        (if cm.max_history < cm.history.length + 1 then
          (cm.history ++ [mkTurn (now, u, a)]).drop 1
        else cm.history ++ [mkTurn (now, u, a)]) } := by
  simp [ContextManager.add_turn, mkTurn]

/-- Folding turns through `add_turn` keeps, of the concatenated stream, the
suffix that fits the bound — provided the starting history fits it. -/
theorem add_turns_eq_drop (l : List (Nat × String × String)) :
    ∀ (cm : ContextManager), cm.history.length ≤ cm.max_history →
      (cm.add_turns l).history =
        (cm.history ++ l.map mkTurn).drop
          (cm.history.length + l.length - cm.max_history) ∧
      (cm.add_turns l).max_history = cm.max_history := by
  induction l with
  | nil =>
    intro cm hle
    constructor
    · simp only [List.map_nil, List.append_nil, List.length_nil, Nat.add_zero]
      rw [Nat.sub_eq_zero_of_le hle, List.drop_zero]
      rfl
    · rfl
  | cons t rest ih =>
    intro cm hle
    have hunf : cm.add_turns (t :: rest) =
        (cm.add_turn t.2.1 t.2.2 t.1).add_turns rest := rfl
    have hT : mkTurn (t.1, t.2.1, t.2.2) = mkTurn t := rfl
    by_cases hc : cm.max_history < cm.history.length + 1
    · -- the bound is hit: `pop(0)` fires, the history length stays `max`
      have hstep : cm.add_turn t.2.1 t.2.2 t.1 =
          { cm with history := (cm.history ++ [mkTurn t]).drop 1 } := by
        rw [add_turn_eq, hT, if_pos hc]
      have hlen' : ((cm.history ++ [mkTurn t]).drop 1).length ≤ cm.max_history := by
        simp only [List.length_drop, List.length_append, List.length_singleton]
        omega
      obtain ⟨h1, h2⟩ := ih { cm with history := (cm.history ++ [mkTurn t]).drop 1 }
        hlen'
      simp only at h1 h2
      rw [hunf, hstep, h1]
      refine ⟨?_, h2⟩
      have e1 : ((cm.history ++ [mkTurn t]) ++ rest.map mkTurn).drop 1 =
          (cm.history ++ [mkTurn t]).drop 1 ++ rest.map mkTurn :=
        List.drop_append_of_le_length (by simp)
      rw [← e1, List.drop_drop]
      have e2 : cm.history ++ (t :: rest).map mkTurn =
          (cm.history ++ [mkTurn t]) ++ rest.map mkTurn := by
        simp
      rw [e2]
      congr 1
      simp only [List.length_drop, List.length_append, List.length_singleton,
        List.length_cons, List.length_map, List.length_nil]
      omega
    · -- still below the bound: plain append
      have hstep : cm.add_turn t.2.1 t.2.2 t.1 =
          { cm with history := cm.history ++ [mkTurn t] } := by
        rw [add_turn_eq, hT, if_neg hc]
      have hlen' : (cm.history ++ [mkTurn t]).length ≤ cm.max_history := by
        simp only [List.length_append, List.length_singleton]
        omega
      obtain ⟨h1, h2⟩ := ih { cm with history := cm.history ++ [mkTurn t] } hlen'
      simp only at h1 h2
      rw [hunf, hstep, h1]
      refine ⟨?_, h2⟩
      have e2 : cm.history ++ (t :: rest).map mkTurn =
          (cm.history ++ [mkTurn t]) ++ rest.map mkTurn := by
        simp
      rw [e2]
      congr 1
      simp only [List.length_append, List.length_singleton, List.length_cons,
        List.length_map, List.length_nil]
      omega

/-- Claim C7 (amended): for a starting history of at most `max` turns,
`max + 5` calls to `add_turn` leave exactly `max` turns: the added turns
minus the oldest five, intact and in insertion order. -/
theorem claim_C7_history_trim (cm : ContextManager)
    (l : List (Nat × String × String))
    (hstart : cm.history.length ≤ cm.max_history)
    (hlen : l.length = cm.max_history + 5) :
    (cm.add_turns l).history = (l.map mkTurn).drop 5 ∧
    (cm.add_turns l).history.length = cm.max_history := by
  obtain ⟨h1, _⟩ := add_turns_eq_drop l cm hstart
  have e1 : cm.history.length + l.length - cm.max_history =
      cm.history.length + 5 := by omega
  rw [h1, e1]
  constructor
  · exact List.drop_append 5
  · rw [List.drop_append 5, List.length_drop, List.length_map]
    omega

/-- Witness for the amended C7: an empty history with bound 2 and seven
added turns keeps exactly the last two. -/
theorem claim_C7_history_trim_witness :
    ((ContextManager.init 2).add_turns adds7).history = (adds7.map mkTurn).drop 5 ∧
    ((ContextManager.init 2).add_turns adds7).history.length = 2 :=
  claim_C7_history_trim (ContextManager.init 2) adds7 (by decide) (by decide)

/-- Counterexample to claim C7 as stated: with a starting history longer
than the bound (`max_history = 1`, two stored turns), `max + 5 = 6` calls
to `add_turn` leave two turns, not `max = 1`. -/
theorem claim_C7_counterexample :
    1 ≤ cm7bad.max_history ∧ adds6.length = cm7bad.max_history + 5 ∧
    (cm7bad.add_turns adds6).history.length ≠ cm7bad.max_history := by
  decide

/-! ## Security theorems (claims C1, C2, C3, C8) -/

/-- `is_sudo_active` never changes the dangerous-pattern list. -/
theorem is_sudo_active_dangerous (m : EnhSec.EnhancedSecurityManager)
    (now : Int) :
    (EnhSec.is_sudo_active m now).2.dangerous_commands = m.dangerous_commands := by
  cases hm : m.current_session with
  | none => simp [EnhSec.is_sudo_active, hm]
  | some s => simp [EnhSec.is_sudo_active, hm]

/-- `check_dangerous_command` depends only on the dangerous-pattern list. -/
theorem check_dangerous_congr (m m' : EnhSec.EnhancedSecurityManager)
    (cmd : String) (h : m'.dangerous_commands = m.dangerous_commands) :
    EnhSec.check_dangerous_command m' cmd = EnhSec.check_dangerous_command m cmd := by
  simp only [EnhSec.check_dangerous_command, h]

/-- Claim C1 (amended): `SecurityChecker.check_command` allows a dangerous
nonempty command exactly when the sudo flag is set, with fixed generic
reasons that do not name the matched pattern; `_execute_shell` lets a
command reach `subprocess.run` only when the feature flag is set and
`check_command` allows it; `execute_with_sudo` runs a command only when
the session is active *and* no dangerous pattern matches — a dangerous
command is refused there even while the session is active. -/
theorem claim_C1_security_gate :
    (∀ (sc : JarvisSec.SecurityChecker) (cmd : String),
      pyStrip cmd ≠ "" → sc.is_dangerous cmd = true →
      sc.check_command cmd true = (true, "Allowed under sudo session") ∧
      sc.check_command cmd false =
        (false, "Command contains dangerous keywords and sudo not active")) ∧
    (∀ (ce : JarvisSec.CommandExecutor) (cmd : String) (now : Int)
        (out : String) (ce' : JarvisSec.CommandExecutor),
      ce.execute_shell cmd now = (.runs out, ce') →
      ce.allow_system_commands = true ∧ out = cmd ∧
      (ce.security_checker.check_command cmd
        (ce.sudo_session.is_valid now).1).1 = true) ∧
    (∀ (m : EnhSec.EnhancedSecurityManager) (cmd : String) (now : Int)
        (argv : List String) (m' : EnhSec.EnhancedSecurityManager),
      EnhSec.execute_with_sudo m cmd now = (.runs argv, m') →
      (EnhSec.is_sudo_active m now).1 = true ∧
      (EnhSec.check_dangerous_command m cmd).1 = false ∧
      argv = "sudo" :: pySplitWs cmd) ∧
    (∀ (m : EnhSec.EnhancedSecurityManager) (cmd : String) (now : Int),
      (EnhSec.is_sudo_active m now).1 = true →
      (EnhSec.check_dangerous_command m cmd).1 = true →
      ∀ argv m', EnhSec.execute_with_sudo m cmd now ≠ (.runs argv, m')) := by
  refine ⟨?_, ?_, ?_, ?_⟩
  · intro sc cmd hne hd
    have hcmd : ¬ (cmd = "" || pyStrip cmd = "") = true := by
      intro hc
      rcases Bool.or_eq_true_iff.mp hc with h1 | h1
      · apply hne
        rw [decide_eq_true_eq.mp h1]
        rfl
      · exact hne (decide_eq_true_eq.mp h1)
    constructor
    · simp only [JarvisSec.SecurityChecker.check_command, hd]
      rw [if_neg hcmd]
      simp
    · simp only [JarvisSec.SecurityChecker.check_command, hd]
      rw [if_neg hcmd]
      simp
  · intro ce cmd now out ce' h
    simp only [JarvisSec.CommandExecutor.execute_shell] at h
    by_cases hf : ce.allow_system_commands = false
    · rw [if_pos hf] at h
      simp at h
    · rw [if_neg hf] at h
      by_cases hcc : (ce.security_checker.check_command cmd
          (ce.sudo_session.is_valid now).1).1 = false
      · rw [if_pos hcc] at h
        simp at h
      · rw [if_neg hcc] at h
        simp only [Prod.mk.injEq, JarvisSec.ShellOutcome.runs.injEq] at h
        exact ⟨Bool.not_eq_false _ |>.mp hf, h.1.symm,
          Bool.not_eq_false _ |>.mp hcc⟩
  · intro m cmd now argv m' h
    simp only [EnhSec.execute_with_sudo] at h
    by_cases ha : (EnhSec.is_sudo_active m now).1 = false
    · rw [if_pos ha] at h
      simp at h
    · rw [if_neg ha] at h
      have hdceq := check_dangerous_congr m (EnhSec.is_sudo_active m now).2 cmd
        (is_sudo_active_dangerous m now)
      by_cases hd : (EnhSec.check_dangerous_command
          (EnhSec.is_sudo_active m now).2 cmd).1 = true
      · rw [if_pos hd] at h
        simp at h
      · rw [if_neg hd] at h
        simp only [Prod.mk.injEq, EnhSec.SudoExecResult.runs.injEq] at h
        refine ⟨Bool.not_eq_false _ |>.mp ha, ?_, h.1.symm⟩
        rw [← hdceq]
        exact Bool.not_eq_true _ |>.mp hd
  · intro m cmd now hact hd argv m' h
    simp only [EnhSec.execute_with_sudo] at h
    rw [if_neg (by rw [hact]; simp)] at h
    have hdceq := check_dangerous_congr m (EnhSec.is_sudo_active m now).2 cmd
      (is_sudo_active_dangerous m now)
    rw [if_pos (by rw [hdceq]; exact hd)] at h
    simp at h

/-- Witness for C1 (amended), at `"rm -rf /"` with the default checker. -/
theorem claim_C1_security_gate_witness :
    JarvisSec.SecurityChecker.check_command scW "rm -rf /" true =
      (true, "Allowed under sudo session") ∧
    JarvisSec.SecurityChecker.check_command scW "rm -rf /" false =
      (false, "Command contains dangerous keywords and sudo not active") :=
  claim_C1_security_gate.1 scW "rm -rf /" (by decide) (by decide)

/-- Counterexample to claim C1 as stated: with an active privilege session
and the dangerous command `"rm -rf /"`, `execute_with_sudo` refuses — the
command is *not* executed even though the session is active at the moment
of the check. -/
theorem claim_C1_counterexample :
    (EnhSec.is_sudo_active mgrActive 10).1 = true ∧
    (EnhSec.check_dangerous_command mgrActive "rm -rf /").1 = true ∧
    (EnhSec.execute_with_sudo mgrActive "rm -rf /" 10).1 =
      EnhSec.SudoExecResult.refused
        ("⚠️ WARNING: This command is potentially dangerous!\nCommand: rm -rf /"
          ++ "\n\nThis command will NOT be executed for safety reasons.") := by
  refine ⟨by decide, by decide, ?_⟩
  rfl

/-- Claim C2: while a session is active and unexpired, `activate_sudo_mode`
fails, reports the remaining time of the *existing* session in its
message, and leaves the manager (hence the session and its `end_time`)
unchanged; likewise `SudoSession.activate` of `jarvis/security.py` returns
`False` and leaves the session untouched. -/
theorem claim_C2_single_active_session :
    (∀ (m : EnhSec.EnhancedSecurityManager) (s : EnhSec.SudoSession)
        (d : Option Int) (now : Int),
      m.current_session = some s → s.is_active = true → now ≤ s.end_time →
      EnhSec.activate_sudo_mode m d now =
        ((false, "Sudo mode already active for " ++ toString (s.end_time - now)
          ++ " more seconds"), m)) ∧
    (∀ (s : JarvisSec.SudoSession) (now : Int),
      (s.is_valid now).1 = true → s.activate now = (false, s)) := by
  constructor
  · intro m s d now hsess hact hle
    have hv : s.is_valid now = (true, s) := by
      simp only [EnhSec.SudoSession.is_valid, hact]
      rw [if_neg (by simp), if_neg (by omega)]
    have hr : s.get_remaining_time now = (s.end_time - now, s) := by
      simp only [EnhSec.SudoSession.get_remaining_time, hv]
      rw [max_eq_right (by omega)]
    simp only [EnhSec.activate_sudo_mode, hsess, hv, hr]
  · intro s now hv
    have hact : s.active = true := by
      by_contra hna
      have : s.active = false := by
        cases h : s.active
        · rfl
        · exact absurd h hna
      simp [JarvisSec.SudoSession.is_valid, this] at hv
    have hvv : s.is_valid now = (true, s) := by
      simp only [JarvisSec.SudoSession.is_valid, hact] at hv ⊢
      cases hst : s.session_start with
      | none => simp [hst] at hv
      | some st =>
          simp only [hst] at hv ⊢
          by_cases hexp : s.duration_seconds < now - st
          · simp [hexp] at hv
          · simp [hexp]
    simp only [JarvisSec.SudoSession.activate, hact, hvv, if_true]

/-- Witness for C2: a 60-second session started at 0; re-activation at
time 10 fails with 50 seconds remaining, for both session models. -/
theorem claim_C2_single_active_session_witness :
    EnhSec.activate_sudo_mode mgrActive (some 120) 10 =
      ((false, "Sudo mode already active for 50 more seconds"), mgrActive) ∧
    jsW.activate 10 = (false, jsW) := by
  constructor
  · have h := claim_C2_single_active_session.1 mgrActive sessW (some 120) 10
      rfl rfl (by decide)
    rw [h]
    rfl
  · exact claim_C2_single_active_session.2 jsW 10 (by decide)

/-- Claim C3 (amended): the keyword branch fires on *containment* of the
configured keyword (case-insensitive substring, granting the default
duration); failing that, with timed sudo enabled and `"sudo code"`
contained, the first token after a `"code"` token that parses as an
integer `N` grants `N` seconds when `0 < N ≤ 3600` and otherwise yields
`(false, 0, "Invalid time (max 1 hour)")` — never a clamped duration. -/
theorem claim_C3_parse_activation (m : EnhSec.EnhancedSecurityManager)
    (input : String) :
    (pyIn (pyLower m.sudo_keyword) (pyStrip (pyLower input)) = true →
      EnhSec.parse_sudo_keyword m input =
        (true, m.default_sudo_duration, some "Default sudo access")) ∧
    (pyIn (pyLower m.sudo_keyword) (pyStrip (pyLower input)) = false →
      m.allow_timed_sudo = true →
      pyIn "sudo code" (pyStrip (pyLower input)) = true →
      ∀ tok t,
        EnhSec.findCodeArg (pySplitWs (pyStrip (pyLower input))) = some tok →
        pyInt? tok = some t →
        ((0 < t ∧ t ≤ 3600) →
          EnhSec.parse_sudo_keyword m input =
            (true, t, some ("Sudo access for " ++ toString t ++ "s"))) ∧
        (¬(0 < t ∧ t ≤ 3600) →
          EnhSec.parse_sudo_keyword m input =
            (false, 0, some "Invalid time (max 1 hour)"))) := by
  constructor
  · intro h
    simp only [EnhSec.parse_sudo_keyword, h, if_true]
  · intro h1 h2 h3 tok t htok ht
    constructor
    · intro hin
      simp only [EnhSec.parse_sudo_keyword, h1, h2, h3, htok, ht]
      simp [hin]
    · intro hout
      simp only [EnhSec.parse_sudo_keyword, h1, h2, h3, htok, ht]
      simp [hout]

/-- Witness for C3 (amended): the spec's own probe inputs on the default
manager: `"sudo code 300"` grants 300 s, `"sudo code 3601"` is refused
with duration 0. -/
theorem claim_C3_parse_activation_witness :
    EnhSec.parse_sudo_keyword mgrDefault "sudo code 300" =
      (true, 300, some ("Sudo access for " ++ toString (300 : Int) ++ "s")) ∧
    EnhSec.parse_sudo_keyword mgrDefault "sudo code 3601" =
      (false, 0, some "Invalid time (max 1 hour)") := by
  constructor
  · exact ((claim_C3_parse_activation mgrDefault "sudo code 300").2
      (by decide) (by decide) (by decide) "300" 300 (by decide) (by decide)).1
      (by decide)
  · exact ((claim_C3_parse_activation mgrDefault "sudo code 3601").2
      (by decide) (by decide) (by decide) "3601" 3601 (by decide) (by decide)).2
      (by decide)

/-- Counterexample to claim C3 as stated: `"hey sudo code 300 please"` is
neither the exact configured keyword (`"sudo code 0"`) nor a
keyword-plus-integer text, yet the parser triggers with 300 seconds — the
recognition is substring containment and token scanning, not an exact
match. -/
theorem claim_C3_counterexample :
    EnhSec.parse_sudo_keyword mgrDefault "hey sudo code 300 please" =
      (true, 300, some ("Sudo access for " ++ toString (300 : Int) ++ "s")) ∧
    ¬ c3ClaimedTrigger mgrDefault "hey sudo code 300 please" := by
  constructor
  · rfl
  · rintro (h | ⟨n, hpos, hle, h⟩)
    · exact absurd h (by decide)
    · have hk : pyLower mgrDefault.sudo_keyword ++ " " = "sudo code 0 " := rfl
      rw [hk] at h
      have h2 := congrArg String.data h
      rw [String.data_append] at h2
      have h3 : (pyStrip (pyLower "hey sudo code 300 please")).data.take 3 =
          ("sudo code 0 ".data ++ (toString n).data).take 3 := by rw [h2]
      rw [List.take_append_of_le_length (by decide)] at h3
      exact absurd h3 (by decide)

/-- Claim C8 (amended): construction from a corrupted configuration
snapshot does not fail — there is no validation; a non-positive default
duration is stored unchanged and the manager starts silently with it. -/
theorem claim_C8_init_no_validation (cfg : EnhSec.SecurityConfig) (d : Int)
    (hd : cfg.sudo_mode_duration = some d) (hneg : d ≤ 0) :
    (EnhSec.EnhancedSecurityManager.init cfg).default_sudo_duration = d ∧
    (EnhSec.EnhancedSecurityManager.init cfg).current_session = none := by
  simp [EnhSec.EnhancedSecurityManager.init, hd]

/-- Witness for C8 (amended) at the corrupted snapshot `cfgBad`. -/
theorem claim_C8_init_no_validation_witness :
    (EnhSec.EnhancedSecurityManager.init cfgBad).default_sudo_duration = -5 ∧
    (EnhSec.EnhancedSecurityManager.init cfgBad).current_session = none :=
  claim_C8_init_no_validation cfgBad (-5) (by decide) (by decide)

/-- Counterexample to claim C8 as stated: `__init__` with a negative
default session duration completes normally, returns a fully-formed
manager carrying the corrupt value, and that value then flows into
keyword activation (granting a `-5`-second session duration). -/
theorem claim_C8_counterexample :
    EnhSec.EnhancedSecurityManager.init cfgBad =
      { sudo_keyword := "sudo code 0", default_sudo_duration := -5,
        allow_custom_sudo := true, allow_timed_sudo := true,
        current_session := none,
        dangerous_commands := EnhSec.dangerous_commands_default } ∧
    EnhSec.parse_sudo_keyword (EnhSec.EnhancedSecurityManager.init cfgBad)
      "sudo code 0" = (true, -5, some "Default sudo access") := by
  constructor
  · rfl
  · rfl

/-! ## Command-intent parser theorems (claim C9) -/

/-- Claim C9: `parse_intent` returns no intent for the empty string and
for every non-string input — the guard returns `None` before any template
runs, so no partially-filled intent can be produced for such inputs. -/
theorem claim_C9_parse_intent_guard :
    CmdExec.parse_intent (.pyStr "") = none ∧
    (∀ v : CmdExec.PyVal, v.isStr = false → CmdExec.parse_intent v = none) := by
  constructor
  · rfl
  · intro v hv
    simp [CmdExec.parse_intent, hv]

/-- Witness for C9 at the non-string inputs `None`, `0` and `7`. -/
theorem claim_C9_parse_intent_guard_witness :
    CmdExec.parse_intent .pyNone = none ∧
    CmdExec.parse_intent (.pyInt 0) = none ∧
    CmdExec.parse_intent (.pyInt 7) = none :=
  ⟨claim_C9_parse_intent_guard.2 .pyNone (by decide),
   claim_C9_parse_intent_guard.2 (.pyInt 0) (by decide),
   claim_C9_parse_intent_guard.2 (.pyInt 7) (by decide)⟩

/-! ## Classifier theorems (claim C6) -/

theorem foldl_max_ge_init (l : List Nat) (a : Nat) : a ≤ l.foldl max a := by
  induction l generalizing a with
  | nil => simp
  | cons x t ih => exact le_trans (le_max_left a x) (ih (max a x))

theorem foldl_max_ge_mem (l : List Nat) (x : Nat) (hx : x ∈ l) :
    ∀ a, x ≤ l.foldl max a := by
  induction l with
  | nil => simp at hx
  | cons y t ih =>
    intro a
    rcases List.mem_cons.mp hx with h1 | h2
    · subst h1
      exact le_trans (le_max_right a x) (foldl_max_ge_init t (max a x))
    · exact ih h2 (max a y)

theorem foldl_max_eq_or_mem (l : List Nat) (a : Nat) :
    l.foldl max a = a ∨ l.foldl max a ∈ l := by
  induction l generalizing a with
  | nil => simp
  | cons y t ih =>
    rcases ih (max a y) with h | h
    · simp only [List.foldl_cons]
      rcases Nat.le_total a y with hle | hle
      · right
        rw [h, max_eq_right hle]
        exact List.mem_cons_self _ _
      · left
        rw [h, max_eq_left hle]
    · exact Or.inr (List.mem_cons_of_mem _ h)

/-- The fold inside `pyMaxKey` returns the *first* element attaining the
maximal score: everything strictly before it scores strictly less, and
nothing scores more. -/
theorem pyMaxKey_first_max (t : List (Router.TaskType × Nat))
    (x : Router.TaskType × Nat) :
    ∃ l1 l2,
      x :: t = l1 ++ (t.foldl (fun b y => if y.2 > b.2 then y else b) x) :: l2 ∧
      (∀ p ∈ l1, p.2 < (t.foldl (fun b y => if y.2 > b.2 then y else b) x).2) ∧
      (∀ p ∈ x :: t,
        p.2 ≤ (t.foldl (fun b y => if y.2 > b.2 then y else b) x).2) := by
  induction t generalizing x with
  | nil => exact ⟨[], [], rfl, by simp, by simp⟩
  | cons y t ih =>
    by_cases h : y.2 > x.2
    · simp only [List.foldl_cons, if_pos h]
      obtain ⟨l1, l2, heq, hlt, hle⟩ := ih y
      refine ⟨x :: l1, l2, by rw [List.cons_append, ← heq], ?_, ?_⟩
      · intro p hp
        rcases List.mem_cons.mp hp with h1 | h2
        · have h3 := hle y (List.mem_cons_self _ _)
          rw [h1]
          omega
        · exact hlt p h2
      · intro p hp
        rcases List.mem_cons.mp hp with h1 | h2
        · have h3 := hle y (List.mem_cons_self _ _)
          rw [h1]
          omega
        · exact hle p h2
    · simp only [List.foldl_cons, if_neg h]
      obtain ⟨l1, l2, heq, hlt, hle⟩ := ih x
      cases l1 with
      | nil =>
        rw [List.nil_append] at heq
        injection heq with hxb htl
        refine ⟨[], y :: t, ?_, by simp, ?_⟩
        · rw [List.nil_append, ← hxb]
        · intro p hp
          rcases List.mem_cons.mp hp with h1 | h2
          · rw [h1, ← hxb]
          · rcases List.mem_cons.mp h2 with h3 | h4
            · have h5 := hle x (List.mem_cons_self _ _)
              rw [h3]
              omega
            · exact hle p (List.mem_cons_of_mem _ h4)
      | cons a l1' =>
        rw [List.cons_append] at heq
        injection heq with hxa htl
        refine ⟨x :: y :: l1', l2, ?_, ?_, ?_⟩
        · nth_rewrite 1 [htl]
          rw [List.cons_append, List.cons_append]
        · intro p hp
          have hax := hlt a (List.mem_cons_self _ _)
          rw [← hxa] at hax
          rcases List.mem_cons.mp hp with h1 | h2
          · rw [h1]
            exact hax
          · rcases List.mem_cons.mp h2 with h3 | h4
            · rw [h3]
              omega
            · exact hlt p (List.mem_cons_of_mem _ h4)
        · intro p hp
          have hx5 := hle x (List.mem_cons_self _ _)
          rcases List.mem_cons.mp hp with h1 | h2
          · rw [h1]
            exact hx5
          · rcases List.mem_cons.mp h2 with h3 | h4
            · rw [h3]
              omega
            · exact hle p (List.mem_cons_of_mem _ h4)

/-- Claim C6: the classifier counts, per category in declaration order,
how many of its patterns match the lower-cased text; an all-zero score
yields `general`, otherwise the returned category is the firstmost one
attaining the maximal count (strictly greater than every earlier count,
at least every other count).  Concretely: `"write a python function"` is
`code` (a code/creative tie broken by order), `"what is the capital of
France"` is `factual`, `"hello"` is `general`. -/
theorem claim_C6_classifier :
    (∀ q : String,
      ((∀ p ∈ Router.scoresOf q, p.2 = 0) →
        Router.detect_task_type q = Router.TaskType.general) ∧
      ((∃ p ∈ Router.scoresOf q, 0 < p.2) →
        ∃ l1 l2 n, Router.scoresOf q =
            l1 ++ (Router.detect_task_type q, n) :: l2 ∧
          (∀ p ∈ l1, p.2 < n) ∧
          (∀ p ∈ Router.scoresOf q, p.2 ≤ n))) ∧
    Router.detect_task_type "write a python function" = Router.TaskType.code ∧
    Router.detect_task_type "what is the capital of France" =
      Router.TaskType.factual ∧
    Router.detect_task_type "hello" = Router.TaskType.general := by
  refine ⟨?_, by decide, by decide, by decide⟩
  intro q
  constructor
  · intro hz
    have hm : Router.maxVal (Router.scoresOf q) = 0 := by
      unfold Router.maxVal
      rcases foldl_max_eq_or_mem ((Router.scoresOf q).map Prod.snd) 0 with h | h
      · exact h
      · rcases List.mem_map.mp h with ⟨p, hp, hpe⟩
        rw [← hpe]
        exact hz p hp
    simp [Router.detect_task_type, hm]
  · rintro ⟨p0, hp0, hpos⟩
    have hm : 0 < Router.maxVal (Router.scoresOf q) := by
      have h1 := foldl_max_ge_mem ((Router.scoresOf q).map Prod.snd) p0.2
        (List.mem_map_of_mem _ hp0) 0
      unfold Router.maxVal
      omega
    cases hs : Router.scoresOf q with
    | nil =>
      rw [hs] at hp0
      simp at hp0
    | cons x rest =>
      rw [hs] at hm
      have hdet : Router.detect_task_type q =
          (rest.foldl (fun b y => if y.2 > b.2 then y else b) x).1 := by
        simp only [Router.detect_task_type, hs]
        rw [if_pos hm]
        rfl
      obtain ⟨l1, l2, heq, hlt, hle⟩ := pyMaxKey_first_max rest x
      refine ⟨l1, l2,
        (rest.foldl (fun b y => if y.2 > b.2 then y else b) x).2, ?_, hlt, ?_⟩
      · rw [hdet, Prod.mk.eta]
        exact heq
      · intro p hp
        exact hle p hp

/-- Witness for C6: the all-zero branch at `"hello"` and the argmax
branch at `"write a python function"`. -/
theorem claim_C6_classifier_witness :
    Router.detect_task_type "hello" = Router.TaskType.general ∧
    (∃ l1 l2 n, Router.scoresOf "write a python function" =
        l1 ++ (Router.detect_task_type "write a python function", n) :: l2 ∧
      (∀ p ∈ l1, p.2 < n) ∧
      (∀ p ∈ Router.scoresOf "write a python function", p.2 ≤ n)) :=
  ⟨(claim_C6_classifier.1 "hello").1 (by decide),
   (claim_C6_classifier.1 "write a python function").2 (by decide)⟩

end AIJarvis
